import Mathlib

/-!
Shallow embedding of `scripts/import-game-files.py` (the Settlers.ts
asset importer) together with the semantics of the Python standard-library
primitives it calls (`zipfile.ZipFile.extract`, `os.path.join`,
`os.path.expanduser`), as they behave on a POSIX host (`os.sep = '/'`,
`os.altsep = None`) — the script's own docstring states it exists to fix
extraction on macOS/Linux.

Paths appearing as Python strings are modelled as `List Char`; the host
filesystem is modelled as a pair of maps keyed by absolute-path component
lists (`List Str`), since the POSIX kernel resolves a path string by
splitting on `/`.
-/

abbrev Str := List Char

/-- One record of a zip archive, as exposed by `zipfile.ZipInfo`:
the stored relative path (which may use `\` or `/` separators) and the
entry's decompressed payload bytes (empty for directory entries). -/
structure ZipInfo where
  filename : Str
  payload : List Nat
deriving DecidableEq, Repr

/-- A well-formed zip archive: its entry list in stored order
(`ZipFile.infolist()`). -/
structure Archive where
  entries : List ZipInfo
deriving DecidableEq, Repr

/-- Script line 31: `info.filename = info.filename.replace("\\", "/")`.
A single-character `str.replace` is a character-wise map. -/
def fixSeps (s : Str) : Str := s.map (fun c => if c = '\\' then '/' else c)

/-- Python `str.split('/')` on the character list. -/
def splitSlash : Str → List Str
  | [] => [[]]
  | c :: cs =>
      match splitSlash cs with
      | [] => [[]]
      | p :: ps => if c = '/' then [] :: p :: ps else (c :: p) :: ps

/-- The path components discarded by `zipfile._extract_member`:
`invalid_path_parts = ('', os.path.curdir, os.path.pardir)`. -/
def isInvalidComp (p : Str) : Bool := p == [] || p == ['.'] || p == ['.', '.']

/-- `zipfile._extract_member` arcname sanitization on a POSIX host:
`arcname = os.path.sep.join(x for x in arcname.split(os.path.sep)
                            if x not in invalid_path_parts)`. -/
def arcParts (filename : Str) : List Str :=
  (splitSlash filename).filter (fun p => !(isInvalidComp p))

/-- `ZipInfo.is_dir()`: the (possibly rewritten) filename ends with `'/'`. -/
def isDirName (s : Str) : Bool := s.getLast? == some '/'

/-- The host filesystem: file contents and directory-existence, keyed by
absolute path component lists under which the extractor works. -/
structure FS where
  files : List Str → Option (List Nat)
  dirs : List Str → Bool

/-- The filesystem with no files and no directories (used for concrete
witnesses). -/
def emptyFS : FS := { files := fun _ => none, dirs := fun _ => false }

/-- `a` is a leading segment of `b` (component-wise). -/
def isPrefixL : List Str → List Str → Bool
  | [], _ => true
  | _ :: _, [] => false
  | a :: as, b :: bs => a == b && isPrefixL as bs

/-- `os.mkdir(p)` guarded by `if not os.path.isdir(p)`: mark one directory. -/
def markDir (fs : FS) (p : List Str) : FS :=
  { fs with dirs := fun q => q == p || fs.dirs q }

/-- `os.makedirs(upperdirs)` guarded by existence: afterwards every
non-empty leading segment of `p` exists as a directory. -/
def markDirs (fs : FS) (p : List Str) : FS :=
  { fs with dirs := fun q => (!(q.isEmpty) && isPrefixL q p) || fs.dirs q }

/-- `open(targetpath, "wb")` + copy: (over)write the file at `p`. -/
def writeFile (fs : FS) (p : List Str) (data : List Nat) : FS :=
  { fs with files := fun q => if q = p then some data else fs.files q }

/-- `ZipFile._extract_member(member, targetpath, pwd)` on a POSIX host,
for a member whose `filename` the script has already rewritten:
sanitize the arcname, join it under the destination root, create the
missing upper directories, then either `mkdir` (directory entry) or
write the payload (file entry). -/
def extractMember (fs : FS) (dest : List Str) (info : ZipInfo) : FS :=
  let target := dest ++ arcParts info.filename
  let fs1 := markDirs fs target.dropLast
  if isDirName info.filename then markDir fs1 target
  else writeFile fs1 target info.payload

/-- Script lines 30–33: the `for info in z.infolist()` loop, rewriting
each entry's separators and then calling `z.extract(info, dest)`. -/
def extractEntries (dest : List Str) (fs : FS) : List ZipInfo → FS
  | [] => fs
  | info :: rest =>
      extractEntries dest
        (extractMember fs dest { info with filename := fixSeps info.filename }) rest

/-- The error taxonomy of the extraction call. `archiveReadError` is the
uncaught exception from `zipfile.ZipFile(zip_path, "r")` (missing,
unreadable or malformed archive). `pathTraversalError` appears in the
specification's taxonomy; it is included here so that its absence from
the code's behaviour can be stated. -/
inductive ExtractError where
  | archiveReadError
  | pathTraversalError
deriving DecidableEq, Repr

/-- `extract_zip(zip_path, dest)` (script lines 28–34). Opening the
archive is modelled by the `Option Archive` argument: `none` when
`zipfile.ZipFile` would raise (file missing, unreadable, or not a valid
archive). On success the filesystem after the extraction loop is
returned together with `len(z.infolist())`. -/
def extract_zip (arch? : Option Archive) (dest : List Str) (fs : FS) :
    Except ExtractError (FS × Nat) :=
  match arch? with
  | none => .error .archiveReadError
  | some arch => .ok (extractEntries dest fs arch.entries, arch.entries.length)

/-- File content at `p` in the filesystem produced by an extraction
result (`none` when the extraction failed or wrote nothing there). -/
def extractedFilesAt (r : Except ExtractError (FS × Nat)) (p : List Str) :
    Option (List Nat) :=
  match r with
  | .ok (fs, _) => fs.files p
  | .error _ => none

/-- Directory-existence at `p` in the filesystem produced by an
extraction result. -/
def extractedDirsAt (r : Except ExtractError (FS × Nat)) (p : List Str) : Bool :=
  match r with
  | .ok (fs, _) => fs.dirs p
  | .error _ => false

/-- The entry count reported by an extraction result. -/
def extractCount : Except ExtractError (FS × Nat) → Option Nat
  | .ok (_, n) => some n
  | .error _ => none

/-- The extraction target of one stored entry path under a destination
root: a pure function of the two. -/
def entryTarget (dest : List Str) (stored : Str) : List Str :=
  dest ++ arcParts (fixSeps stored)

/-- `MAIN_ZIP = "settlers4-assets.zip"` (script line 25). -/
def MAIN_ZIP : Str := "settlers4-assets.zip".data

/-- `HD_ZIP = "settlers4-hd-assets.zip"` (script line 26). -/
def HD_ZIP : Str := "settlers4-hd-assets.zip".data

/-- The last component of `SIEDLER_DIR = os.path.join(PUBLIC_DIR, "Siedler4")`. -/
def siedlerName : Str := "Siedler4".data

/-- `posixpath.join(a, b)` for two arguments: `b` wins when absolute,
otherwise it is appended, inserting `/` unless `a` is empty or already
ends in `/`. -/
def osJoin (a b : Str) : Str :=
  if b.head? = some '/' then b
  else if a = [] ∨ a.getLast? = some '/' then a ++ b
  else a ++ '/' :: b

/-- Index of the first `'/'` in `s`, or `s.length` when there is none
(`path.find('/', 1)` with the not-found case folded to the length). -/
def findSlash : Str → Nat
  | [] => 0
  | c :: cs => if c = '/' then 0 else findSlash cs + 1

/-- `userhome.rstrip('/')`. -/
def rstripSlash (s : Str) : Str :=
  (s.reverse.dropWhile (fun c => c == '/')).reverse

/-- The environment the script runs in: command-line arguments after the
program name, the invoking user's resolved home directory (`HOME`), the
password-database lookup used by `~user` forms, the `os.path.isdir` /
`os.path.isfile` predicates, archive opening by path (`none` when
`zipfile.ZipFile` would raise), the exit status of the downstream
`generate-file-list.js` step, the component list of `PUBLIC_DIR`
(derived from the script's own location, hence environmental), and the
initial filesystem. -/
structure Env where
  args : List Str
  home : Str
  pwHome : Str → Option Str
  isDir : Str → Bool
  isFile : Str → Bool
  readArchive : Str → Option Archive
  nodeOk : Bool
  publicDir : List Str
  fs : FS

/-- `posixpath.expanduser(path)`: leave paths not starting with `~`
unchanged; expand a leading `~` to the invoking user's home and a
leading `~user` to that user's home (unchanged when the user is
unknown), right-stripping trailing slashes from the home and falling
back to `/` when the result would be empty. -/
def expanduser (env : Env) (path : Str) : Str :=
  match path with
  | '~' :: rest =>
      let i := findSlash rest
      let tail := rest.drop i
      let userhome? := if i = 0 then some env.home else env.pwHome (rest.take i)
      match userhome? with
      | none => path
      | some h =>
          let r := rstripSlash h ++ tail
          if r = [] then ['/'] else r
  | _ => path

/-- `SIEDLER_DIR` as a component list: `PUBLIC_DIR/Siedler4`. -/
def siedlerDir (env : Env) : List Str := env.publicDir ++ [siedlerName]

/-- How one process run ends: `sys.exit(code)`, death by an uncaught
exception (a non-zero exit carrying the distinguishable error), or
running to the final `print("\nDone!")` (exit status 0). -/
inductive Outcome where
  | exited (code : Nat)
  | uncaught (e : ExtractError)
  | done
deriving DecidableEq, Repr

/-- `main()` from the directory-check onward (script lines 47–98), the
source directory argument already expanded. Print statements have no
filesystem effect and are not modelled; the `Gfx/2.gh6` verification is
print-only (warning, never fatal). -/
def mainWithDir (env : Env) (src_dir : Str) : Outcome × FS :=
  if env.isDir src_dir = false then (.exited 1, env.fs)
  else
    let main_zip := osJoin src_dir MAIN_ZIP
    let hd_zip := osJoin src_dir HD_ZIP
    if env.isFile main_zip = false then (.exited 1, env.fs)
    else
      match extract_zip (env.readArchive main_zip) env.publicDir env.fs with
      | .error e => (.uncaught e, env.fs)
      | .ok (fs1, _count) =>
          match
            (if env.isFile hd_zip then
              match extract_zip (env.readArchive hd_zip) (siedlerDir env) fs1 with
              | .error e => Except.error e
              | .ok (fs2, _) => Except.ok fs2
            else Except.ok fs1 : Except ExtractError FS) with
          | .error e => (.uncaught e, fs1)
          | .ok fs2 => if env.nodeOk then (.done, fs2) else (.exited 1, fs2)

/-- `main()` (script lines 37–98): the usage check on `sys.argv`, then
`src_dir = os.path.expanduser(sys.argv[1])`, then everything else. -/
def runMain (env : Env) : Outcome × FS :=
  match env.args with
  | [] => (.exited 1, env.fs)
  | arg :: _ => mainWithDir env (expanduser env arg)

/-- Left-biased choice on optional file contents: the result of a later
write, else what was there before. -/
def orElseOpt (x y : Option (List Nat)) : Option (List Nat) :=
  match x with
  | some d => some d
  | none => y

/-- The file write performed for one stored entry at path `p`: its
payload when the entry is a file entry targeting `p`, else nothing. -/
def entryFileWrite (dest : List Str) (info : ZipInfo) (p : List Str) :
    Option (List Nat) :=
  if isDirName (fixSeps info.filename) = false ∧ p = entryTarget dest info.filename
  then some info.payload else none

/-- Whether processing one stored entry marks `p` as a directory: the
entry's own target for a directory entry, and every non-empty leading
segment of the target's parent (created by `os.makedirs`). -/
def entryMarks (dest : List Str) (info : ZipInfo) (p : List Str) : Bool :=
  (isDirName (fixSeps info.filename) && (p == entryTarget dest info.filename))
    || (!(p.isEmpty) && isPrefixL p (entryTarget dest info.filename).dropLast)

/-- The content left at `p` by the writes of an entry list processed in
stored order: the last matching file entry's payload, if any. -/
def lastFileWrite (dest : List Str) : List ZipInfo → List Str → Option (List Nat)
  | [], _ => none
  | info :: rest, p =>
      orElseOpt (lastFileWrite dest rest p) (entryFileWrite dest info p)

/-- Whether any entry of the list marks `p` as a directory. -/
def dirMarks (dest : List Str) : List ZipInfo → List Str → Bool
  | [], _ => false
  | info :: rest, p => entryMarks dest info p || dirMarks dest rest p

/-- The stored entry path `Gfx\2.gh6` from the spec's P1. -/
def gfxStored : Str := "Gfx\\2.gh6".data

/-- Its normalized component form: file `2.gh6` inside directory `Gfx`. -/
def gfxParts : List Str := ["Gfx".data, "2.gh6".data]

/-- Stored entry path `a/b.txt` from the spec's P6. -/
def abStored : Str := "a/b.txt".data

/-- Stored entry path `c\d.txt` from the spec's P6. -/
def cdStored : Str := "c\\d.txt".data

/-- A file entry whose stored path contains a `..` segment. -/
def evilEntry : ZipInfo := ZipInfo.mk ("../evil.txt".data) [7]

/-- A concrete destination root for the traversal scenario. -/
def evilDest : List Str := ["d".data]

/-- First of two entries sharing one normalized target path. -/
def dupA : ZipInfo := ZipInfo.mk ("x.txt".data) [1]

/-- Second of two entries sharing one normalized target path. -/
def dupB : ZipInfo := ZipInfo.mk ("x.txt".data) [2]

/-- A one-file archive for the idempotence witness. -/
def archOnce : Archive := Archive.mk [ZipInfo.mk ("a.txt".data) [1]]

/-- A directory entry (`d/`). -/
def dirEntryD : ZipInfo := ZipInfo.mk ("d/".data) []

/-- A file entry (`f.txt`). -/
def fileEntryF : ZipInfo := ZipInfo.mk ("f.txt".data) [3]

/-- An environment whose primary archive exists but cannot be opened. -/
def envReadFail : Env :=
  { args := ["/z".data], home := [], pwHome := fun _ => none,
    isDir := fun _ => true, isFile := fun _ => true,
    readArchive := fun _ => none, nodeOk := true, publicDir := [], fs := emptyFS }

/-- An environment invoked with no directory argument. -/
def envNoArgs : Env :=
  { args := [], home := [], pwHome := fun _ => none,
    isDir := fun _ => true, isFile := fun _ => true,
    readArchive := fun _ => none, nodeOk := true, publicDir := [], fs := emptyFS }

/-- An environment whose argument is not a directory. -/
def envNotDir : Env :=
  { args := ["/z".data], home := [], pwHome := fun _ => none,
    isDir := fun _ => false, isFile := fun _ => true,
    readArchive := fun _ => none, nodeOk := true, publicDir := [], fs := emptyFS }

/-- An environment whose directory lacks the primary archive. -/
def envNoMain : Env :=
  { args := ["/z".data], home := [], pwHome := fun _ => none,
    isDir := fun _ => true, isFile := fun _ => false,
    readArchive := fun _ => none, nodeOk := true, publicDir := [], fs := emptyFS }

/-- An environment holding only the (readable, empty) primary archive:
the secondary archive is absent. -/
def envMainOnly : Env :=
  { args := ["/z".data], home := [], pwHome := fun _ => none,
    isDir := fun _ => true,
    isFile := fun p => p == "/z/settlers4-assets.zip".data,
    readArchive := fun _ => some (Archive.mk []),
    nodeOk := true, publicDir := [], fs := emptyFS }

/-- An environment invoked with a `~/`-prefixed directory argument. -/
def envTilde : Env :=
  { args := [('~' :: '/' :: "s".data)], home := "/h".data,
    pwHome := fun _ => none, isDir := fun _ => true, isFile := fun _ => false,
    readArchive := fun _ => none, nodeOk := true, publicDir := [], fs := emptyFS }

theorem orElseOpt_assoc (x y z : Option (List Nat)) :
    orElseOpt x (orElseOpt y z) = orElseOpt (orElseOpt x y) z := by
  cases x <;> rfl

theorem orElseOpt_none_right (x : Option (List Nat)) : orElseOpt x none = x := by
  cases x <;> rfl

theorem extractMember_files (fs : FS) (dest : List Str) (info : ZipInfo)
    (p : List Str) :
    (extractMember fs dest info).files p =
      if isDirName info.filename = false ∧ p = dest ++ arcParts info.filename
      then some info.payload else fs.files p := by
  unfold extractMember
  cases h : isDirName info.filename with
  | true => simp [markDir, markDirs, h]
  | false => simp [writeFile, markDirs, h]

theorem extractMember_dirs (fs : FS) (dest : List Str) (info : ZipInfo)
    (p : List Str) :
    (extractMember fs dest info).dirs p =
      ((isDirName info.filename && (p == dest ++ arcParts info.filename))
        || (!(p.isEmpty) && isPrefixL p (dest ++ arcParts info.filename).dropLast)
        || fs.dirs p) := by
  unfold extractMember
  cases h : isDirName info.filename with
  | true => simp [markDir, markDirs, h, Bool.or_assoc]
  | false => simp [writeFile, markDirs, h]

theorem extractMember_files_fixed (fs : FS) (dest : List Str) (info : ZipInfo)
    (p : List Str) :
    (extractMember fs dest { info with filename := fixSeps info.filename }).files p =
      orElseOpt (entryFileWrite dest info p) (fs.files p) := by
  cases info with
  | mk fn pay =>
      rw [extractMember_files]
      unfold entryFileWrite entryTarget orElseOpt
      simp only []
      split <;> split <;> simp_all

theorem extractMember_dirs_fixed (fs : FS) (dest : List Str) (info : ZipInfo)
    (p : List Str) :
    (extractMember fs dest { info with filename := fixSeps info.filename }).dirs p =
      (entryMarks dest info p || fs.dirs p) := by
  cases info with
  | mk fn pay =>
      rw [extractMember_dirs]
      unfold entryMarks entryTarget
      simp [Bool.or_assoc]

theorem extractEntries_files (dest : List Str) (l : List ZipInfo) :
    ∀ (fs : FS) (p : List Str),
      (extractEntries dest fs l).files p =
        orElseOpt (lastFileWrite dest l p) (fs.files p) := by
  induction l with
  | nil => intro fs p; rfl
  | cons info rest ih =>
      intro fs p
      calc (extractEntries dest fs (info :: rest)).files p
          = (extractEntries dest
              (extractMember fs dest { info with filename := fixSeps info.filename })
              rest).files p := rfl
        _ = orElseOpt (lastFileWrite dest rest p)
              ((extractMember fs dest
                { info with filename := fixSeps info.filename }).files p) := ih _ _
        _ = orElseOpt (lastFileWrite dest rest p)
              (orElseOpt (entryFileWrite dest info p) (fs.files p)) := by
              rw [extractMember_files_fixed]
        _ = orElseOpt (orElseOpt (lastFileWrite dest rest p)
              (entryFileWrite dest info p)) (fs.files p) := orElseOpt_assoc _ _ _
        _ = orElseOpt (lastFileWrite dest (info :: rest) p) (fs.files p) := rfl

theorem extractEntries_dirs (dest : List Str) (l : List ZipInfo) :
    ∀ (fs : FS) (p : List Str),
      (extractEntries dest fs l).dirs p = (dirMarks dest l p || fs.dirs p) := by
  induction l with
  | nil => intro fs p; rfl
  | cons info rest ih =>
      intro fs p
      calc (extractEntries dest fs (info :: rest)).dirs p
          = (extractEntries dest
              (extractMember fs dest { info with filename := fixSeps info.filename })
              rest).dirs p := rfl
        _ = (dirMarks dest rest p
              || (extractMember fs dest
                   { info with filename := fixSeps info.filename }).dirs p) := ih _ _
        _ = (dirMarks dest rest p || (entryMarks dest info p || fs.dirs p)) := by
              rw [extractMember_dirs_fixed]
        _ = (dirMarks dest (info :: rest) p || fs.dirs p) := by
              simp [dirMarks, Bool.or_assoc, Bool.or_comm, Bool.or_left_comm]

theorem FS.eq_of (a b : FS) (hf : a.files = b.files) (hd : a.dirs = b.dirs) :
    a = b := by
  cases a; cases b; simp_all

theorem extractEntries_idem (dest : List Str) (l : List ZipInfo) (fs : FS) :
    extractEntries dest (extractEntries dest fs l) l = extractEntries dest fs l := by
  apply FS.eq_of
  · funext p
    rw [extractEntries_files, extractEntries_files]
    cases lastFileWrite dest l p <;> rfl
  · funext p
    rw [extractEntries_dirs, extractEntries_dirs]
    cases dirMarks dest l p <;> simp

theorem isPrefixL_self_append (a b : List Str) : isPrefixL a (a ++ b) = true := by
  induction a with
  | nil => rfl
  | cons x xs ih => simp [isPrefixL, ih]

theorem entryFileWrite_outside (dest : List Str) (info : ZipInfo) (p : List Str)
    (h : isPrefixL dest p = false) : entryFileWrite dest info p = none := by
  unfold entryFileWrite
  split
  · rename_i hc
    rcases hc with ⟨-, rfl⟩
    rw [entryTarget, isPrefixL_self_append] at h
    exact absurd h (by simp)
  · rfl

theorem lastFileWrite_outside (dest : List Str) (l : List ZipInfo) (p : List Str)
    (h : isPrefixL dest p = false) : lastFileWrite dest l p = none := by
  induction l with
  | nil => rfl
  | cons info rest ih =>
      rw [lastFileWrite, ih, entryFileWrite_outside dest info p h]
      rfl

theorem lastFileWrite_append (dest : List Str) (a b : List ZipInfo) (p : List Str) :
    lastFileWrite dest (a ++ b) p =
      orElseOpt (lastFileWrite dest b p) (lastFileWrite dest a p) := by
  induction a with
  | nil => rw [List.nil_append, lastFileWrite, orElseOpt_none_right]
  | cons info rest ih =>
      rw [List.cons_append, lastFileWrite, ih, lastFileWrite, orElseOpt_assoc]

theorem mem_fixSeps_ne_backslash (s : Str) (c : Char) (h : c ∈ fixSeps s) :
    c ≠ '\\' := by
  unfold fixSeps at h
  rcases List.mem_map.mp h with ⟨c', -, rfl⟩
  split
  · decide
  · assumption

theorem splitSlash_ne_nil (s : Str) : splitSlash s ≠ [] := by
  cases s with
  | nil => simp [splitSlash]
  | cons c cs =>
      unfold splitSlash
      cases h : splitSlash cs with
      | nil => simp
      | cons p ps =>
          show ¬(if c = '/' then [] :: p :: ps else (c :: p) :: ps) = []
          split <;> simp

theorem mem_splitSlash_subset (s : Str) :
    ∀ p c, p ∈ splitSlash s → c ∈ p → c ∈ s := by
  induction s with
  | nil =>
      intro p c hp hc
      simp [splitSlash] at hp
      subst hp
      exact absurd hc (by simp)
  | cons ch cs ih =>
      intro p c hp hc
      unfold splitSlash at hp
      cases h : splitSlash cs with
      | nil => exact absurd h (splitSlash_ne_nil cs)
      | cons q qs =>
          rw [h] at hp
          change p ∈ (if ch = '/' then [] :: q :: qs else (ch :: q) :: qs) at hp
          by_cases hch : ch = '/'
          · rw [if_pos hch] at hp
            rcases List.mem_cons.mp hp with rfl | hp'
            · exact absurd hc (by simp)
            · refine List.mem_cons_of_mem ch (ih p c ?_ hc)
              rw [h]
              exact hp'
          · rw [if_neg hch] at hp
            rcases List.mem_cons.mp hp with rfl | hp'
            · rcases List.mem_cons.mp hc with rfl | hc'
              · exact List.mem_cons_self c cs
              · refine List.mem_cons_of_mem ch (ih q c ?_ hc')
                rw [h]
                exact List.mem_cons_self q qs
            · refine List.mem_cons_of_mem ch (ih p c ?_ hc)
              rw [h]
              exact List.mem_cons_of_mem q hp'

theorem mem_arcParts_subset (s : Str) (p : Str) (c : Char)
    (hp : p ∈ arcParts s) (hc : c ∈ p) : c ∈ s := by
  unfold arcParts at hp
  exact mem_splitSlash_subset s p c (List.mem_of_mem_filter hp) hc


theorem append_ne_of_ne (dest : List Str) {x y : List Str} (h : x ≠ y) :
    dest ++ x ≠ dest ++ y := fun hc => h (List.append_cancel_left hc)

theorem lastFileWrite_eq_none (dest : List Str) (l : List ZipInfo) (p : List Str)
    (h : ∀ e ∈ l, entryFileWrite dest e p = none) :
    lastFileWrite dest l p = none := by
  induction l with
  | nil => rfl
  | cons e rest ih =>
      rw [lastFileWrite, ih (fun x hx => h x (List.mem_cons_of_mem e hx)),
        h e (List.mem_cons_self e rest)]
      rfl

/-- C1: extract rewrites each entry's stored path, replacing every
backslash with a forward slash before materializing it, independently
per entry: an entry stored as `Gfx\2.gh6` becomes file `2.gh6` inside
directory `Gfx` (never a single file literally named `Gfx\2.gh6`), an
archive mixing `a/b.txt` and `c\d.txt` materializes both as nested
files, and no materialized path component retains a backslash. -/
theorem extract_normalizes_backslash_separators :
    ∀ (dest : List Str) (fs : FS) (pay₁ pay₂ : List Nat),
    extractedFilesAt
        (extract_zip (some (Archive.mk [ZipInfo.mk gfxStored pay₁])) dest fs)
        (dest ++ gfxParts) = some pay₁
    ∧ extractedFilesAt
        (extract_zip (some (Archive.mk [ZipInfo.mk gfxStored pay₁])) dest fs)
        (dest ++ [gfxStored]) = fs.files (dest ++ [gfxStored])
    ∧ extractedFilesAt
        (extract_zip (some (Archive.mk [ZipInfo.mk abStored pay₁,
          ZipInfo.mk cdStored pay₂])) dest fs)
        (dest ++ ["a".data, "b.txt".data]) = some pay₁
    ∧ extractedFilesAt
        (extract_zip (some (Archive.mk [ZipInfo.mk abStored pay₁,
          ZipInfo.mk cdStored pay₂])) dest fs)
        (dest ++ ["c".data, "d.txt".data]) = some pay₂
    ∧ ∀ s : Str, (arcParts (fixSeps s)).all
        (fun comp => comp.all (fun ch => !(ch == '\\'))) = true := by
  intro dest fs pay₁ pay₂
  have harcG : arcParts (fixSeps gfxStored) = gfxParts := by decide
  have hdirG : isDirName (fixSeps gfxStored) = false := by decide
  have harcA : arcParts (fixSeps abStored) = ["a".data, "b.txt".data] := by decide
  have hdirA : isDirName (fixSeps abStored) = false := by decide
  have harcC : arcParts (fixSeps cdStored) = ["c".data, "d.txt".data] := by decide
  have hdirC : isDirName (fixSeps cdStored) = false := by decide
  refine ⟨?_, ?_, ?_, ?_, ?_⟩
  · simp [extractedFilesAt, extract_zip, extractEntries_files, lastFileWrite,
      entryFileWrite, entryTarget, orElseOpt, harcG, hdirG]
  · have hne : dest ++ [gfxStored] ≠ dest ++ gfxParts := by
      intro hc
      have := congrArg List.length hc
      simp [gfxParts] at this
    simp [extractedFilesAt, extract_zip, extractEntries_files, lastFileWrite,
      entryFileWrite, entryTarget, orElseOpt, harcG, hdirG, hne]
  · have hne : dest ++ ["a".data, "b.txt".data] ≠ dest ++ ["c".data, "d.txt".data] :=
      append_ne_of_ne dest (by decide)
    simp [extractedFilesAt, extract_zip, extractEntries_files, lastFileWrite,
      entryFileWrite, entryTarget, orElseOpt, harcA, hdirA, harcC, hdirC, hne]
  · simp [extractedFilesAt, extract_zip, extractEntries_files, lastFileWrite,
      entryFileWrite, entryTarget, orElseOpt, harcC, hdirC]
  · intro s
    rw [List.all_eq_true]
    intro comp hcomp
    rw [List.all_eq_true]
    intro ch hch
    have h1 := mem_arcParts_subset (fixSeps s) comp ch hcomp hch
    have h2 := mem_fixSeps_ne_backslash s ch h1
    simp [h2]

/-- C2 counterexample: on the concrete archive holding the single entry
`../evil.txt`, `extract_zip` does not fail with `pathTraversalError`
(it succeeds), and the entry is silently materialized as `evil.txt`
inside the destination root — the claimed abort does not happen. -/
theorem traversal_entry_not_rejected :
    extract_zip (some (Archive.mk [evilEntry])) evilDest emptyFS
        ≠ Except.error ExtractError.pathTraversalError
    ∧ extractedFilesAt
        (extract_zip (some (Archive.mk [evilEntry])) evilDest emptyFS)
        (evilDest ++ ["evil.txt".data]) = some [7] := by
  constructor
  · intro h
    exact Except.noConfusion h
  · decide

/-- C2 amended: `extract` never fails with `pathTraversalError`; the
underlying extractor instead drops `..`, `.` and empty path segments
from each entry's normalized path, so every write lands under the
destination root and no file outside the destination root is touched. -/
theorem extract_writes_only_inside_dest :
    ∀ (arch : Archive) (dest : List Str) (fs : FS) (p : List Str),
    isPrefixL dest p = false →
      extractedFilesAt (extract_zip (some arch) dest fs) p = fs.files p
      ∧ extract_zip (some arch) dest fs ≠ Except.error ExtractError.pathTraversalError := by
  intro arch dest fs p h
  constructor
  · simp [extract_zip, extractedFilesAt, extractEntries_files,
      lastFileWrite_outside dest arch.entries p h, orElseOpt]
  · intro hc
    exact Except.noConfusion hc

theorem extract_writes_only_inside_dest_witness :
    (extractedFilesAt (extract_zip (some (Archive.mk [evilEntry])) evilDest emptyFS)
        ["x".data] = emptyFS.files ["x".data]
      ∧ extract_zip (some (Archive.mk [evilEntry])) evilDest emptyFS
          ≠ Except.error ExtractError.pathTraversalError) :=
  extract_writes_only_inside_dest (Archive.mk [evilEntry]) evilDest emptyFS
    ["x".data] (by decide)

/-- C3: extract on an archive with N entries returns exactly N, the
count of enumerated entries including directory entries: an archive
with the directory entry `d/` and the file entry `f.txt` reports 2,
though the directory entry produces a directory and no file. -/
theorem extract_count_is_entry_count :
    ∀ (entries : List ZipInfo) (dest : List Str) (fs : FS),
    extractCount (extract_zip (some (Archive.mk entries)) dest fs)
        = some entries.length
    ∧ extractCount (extract_zip (some (Archive.mk [dirEntryD, fileEntryF])) dest fs)
        = some 2
    ∧ extractedFilesAt
        (extract_zip (some (Archive.mk [dirEntryD, fileEntryF])) dest fs)
        (dest ++ ["d".data]) = fs.files (dest ++ ["d".data])
    ∧ extractedDirsAt
        (extract_zip (some (Archive.mk [dirEntryD, fileEntryF])) dest fs)
        (dest ++ ["d".data]) = true
    ∧ extractedFilesAt
        (extract_zip (some (Archive.mk [dirEntryD, fileEntryF])) dest fs)
        (dest ++ ["f.txt".data]) = some [3] := by
  intro entries dest fs
  have harcD : arcParts (fixSeps ("d/".data)) = ["d".data] := by decide
  have hdirD : isDirName (fixSeps ("d/".data)) = true := by decide
  have harcF : arcParts (fixSeps ("f.txt".data)) = ["f.txt".data] := by decide
  have hdirF : isDirName (fixSeps ("f.txt".data)) = false := by decide
  refine ⟨rfl, rfl, ?_, ?_, ?_⟩
  · have hne : dest ++ ["d".data] ≠ dest ++ ["f.txt".data] :=
      append_ne_of_ne dest (by decide)
    simp [extractedFilesAt, extract_zip, extractEntries_files, lastFileWrite,
      entryFileWrite, entryTarget, orElseOpt, dirEntryD, fileEntryF,
      harcD, hdirD, harcF, hdirF, hne]
  · simp [extractedDirsAt, extract_zip, extractEntries_dirs, dirMarks,
      entryMarks, entryTarget, dirEntryD, fileEntryF, harcD, hdirD]
  · simp [extractedFilesAt, extract_zip, extractEntries_files, lastFileWrite,
      entryFileWrite, entryTarget, orElseOpt, dirEntryD, fileEntryF,
      harcF, hdirF]

/-- C6: the extraction target an entry is mapped to is a pure function
of its stored path and the destination root alone: processing an entry
writes (at most) at `entryTarget dest stored`, for every initial
filesystem and irrespective of any other entries or processing order.
-/
theorem extraction_target_pure :
    ∀ (dest : List Str) (fs : FS) (info : ZipInfo) (p : List Str),
    (extractMember fs dest { info with filename := fixSeps info.filename }).files p =
      if isDirName (fixSeps info.filename) = false ∧ p = entryTarget dest info.filename
      then some info.payload else fs.files p := by
  intro dest fs info p
  cases info with
  | mk fn pay =>
      rw [extractMember_files]
      simp [entryTarget]

/-- C4: running extract twice on the same archive into the same
destination root yields a final file tree identical to running it once:
feeding the tree produced by a successful extraction back into
`extract_zip` for the same archive returns that very tree (each entry's
write overwrites the file already at its target path). -/
theorem extract_idempotent :
    ∀ (arch : Archive) (dest : List Str) (fs fs1 : FS) (n : Nat),
    extract_zip (some arch) dest fs = Except.ok (fs1, n) →
    extract_zip (some arch) dest fs1 = Except.ok (fs1, n) := by
  intro arch dest fs fs1 n h
  simp only [extract_zip] at h ⊢
  cases h
  rw [extractEntries_idem]

theorem extract_idempotent_witness :
    extract_zip (some archOnce) [] (extractEntries [] emptyFS archOnce.entries)
      = Except.ok (extractEntries [] emptyFS archOnce.entries, 1) :=
  extract_idempotent archOnce [] emptyFS _ 1 rfl

/-- C5: when several entries normalize to the same target path, the
materialized content is that of the last such entry in the archive's
stored order: with `e₁` before `e₂`, both writing `p`, and no entry
after `e₂` writing `p`, the file at `p` holds `e₂`'s payload. -/
theorem duplicate_entries_last_entry_wins :
    ∀ (dest : List Str) (fs : FS) (l₁ l₂ l₃ : List ZipInfo) (e₁ e₂ : ZipInfo)
      (p : List Str),
    entryFileWrite dest e₁ p ≠ none →
    entryFileWrite dest e₂ p = some e₂.payload →
    (∀ e ∈ l₃, entryFileWrite dest e p = none) →
    (extractEntries dest fs (l₁ ++ e₁ :: (l₂ ++ e₂ :: l₃))).files p
      = some e₂.payload := by
  intro dest fs l₁ l₂ l₃ e₁ e₂ p h1 h2 h3
  rw [extractEntries_files, lastFileWrite_append]
  rw [show lastFileWrite dest (e₁ :: (l₂ ++ e₂ :: l₃)) p
      = orElseOpt (lastFileWrite dest (l₂ ++ e₂ :: l₃) p)
          (entryFileWrite dest e₁ p) from rfl]
  rw [lastFileWrite_append]
  rw [show lastFileWrite dest (e₂ :: l₃) p
      = orElseOpt (lastFileWrite dest l₃ p) (entryFileWrite dest e₂ p) from rfl]
  rw [lastFileWrite_eq_none dest l₃ p h3, h2]
  rfl

theorem duplicate_entries_last_entry_wins_witness :
    (extractEntries [] emptyFS [dupA, dupB]).files ["x.txt".data] = some [2] :=
  duplicate_entries_last_entry_wins [] emptyFS [] [] [] dupA dupB
    ["x.txt".data] (by decide) (by decide) (by simp)

/-- C8: extract on a zero-entry archive succeeds, returns 0, and leaves
the filesystem untouched (no files, no directories created). -/
theorem extract_empty_archive_returns_zero :
    ∀ (dest : List Str) (fs : FS),
      extract_zip (some (Archive.mk [])) dest fs = Except.ok (fs, 0) := by
  intro dest fs
  rfl

/-- C7: opening a missing, unreadable or invalid archive makes
`extract_zip` fail with the distinguishable `archiveReadError`; and
when the primary archive fails to open, the run dies from exactly that
error with the filesystem unchanged — since the environment is
universally quantified with no assumption about the secondary archive,
the secondary archive is never attempted. -/
theorem primary_archive_read_error_aborts_run :
    ∀ (env : Env) (arg : Str) (rest : List Str),
    (∀ (dest : List Str) (fs : FS),
        extract_zip none dest fs = Except.error ExtractError.archiveReadError)
    ∧ (env.args = arg :: rest →
        env.isDir (expanduser env arg) = true →
        env.isFile (osJoin (expanduser env arg) MAIN_ZIP) = true →
        env.readArchive (osJoin (expanduser env arg) MAIN_ZIP) = none →
        runMain env = (Outcome.uncaught ExtractError.archiveReadError, env.fs)) := by
  intro env arg rest
  refine ⟨fun dest fs => rfl, fun h1 h2 h3 h4 => ?_⟩
  simp [runMain, h1, mainWithDir, h2, h3, h4, extract_zip]

theorem primary_archive_read_error_aborts_run_witness :
    runMain envReadFail
        = (Outcome.uncaught ExtractError.archiveReadError, envReadFail.fs)
    ∧ extract_zip none [] emptyFS = Except.error ExtractError.archiveReadError :=
  ⟨(primary_archive_read_error_aborts_run envReadFail ("/z".data) []).2
      rfl rfl rfl rfl,
   (primary_archive_read_error_aborts_run envReadFail ("/z".data) []).1 [] emptyFS⟩

/-- C9: the program exits non-zero with the filesystem untouched when no
directory argument is given, when the argument is not a directory, and
when the primary archive is absent; with everything else in order, the
absence of the secondary archive alone still lets the run finish
successfully (exit status 0). -/
theorem usage_errors_exit_nonzero_without_mutation :
    ∀ (env : Env) (arg : Str) (rest : List Str) (arch : Archive),
    (env.args = [] → runMain env = (Outcome.exited 1, env.fs))
    ∧ (env.args = arg :: rest →
        env.isDir (expanduser env arg) = false →
        runMain env = (Outcome.exited 1, env.fs))
    ∧ (env.args = arg :: rest →
        env.isDir (expanduser env arg) = true →
        env.isFile (osJoin (expanduser env arg) MAIN_ZIP) = false →
        runMain env = (Outcome.exited 1, env.fs))
    ∧ (env.args = arg :: rest →
        env.isDir (expanduser env arg) = true →
        env.isFile (osJoin (expanduser env arg) MAIN_ZIP) = true →
        env.readArchive (osJoin (expanduser env arg) MAIN_ZIP) = some arch →
        env.isFile (osJoin (expanduser env arg) HD_ZIP) = false →
        env.nodeOk = true →
        (runMain env).1 = Outcome.done) := by
  intro env arg rest arch
  refine ⟨fun h1 => ?_, fun h1 h2 => ?_, fun h1 h2 h3 => ?_,
    fun h1 h2 h3 h4 h5 h6 => ?_⟩
  · simp [runMain, h1]
  · simp [runMain, h1, mainWithDir, h2]
  · simp [runMain, h1, mainWithDir, h2, h3]
  · simp [runMain, h1, mainWithDir, h2, h3, h4, h5, h6, extract_zip]

theorem usage_errors_exit_nonzero_without_mutation_witness :
    runMain envNoArgs = (Outcome.exited 1, envNoArgs.fs)
    ∧ runMain envNotDir = (Outcome.exited 1, envNotDir.fs)
    ∧ runMain envNoMain = (Outcome.exited 1, envNoMain.fs)
    ∧ (runMain envMainOnly).1 = Outcome.done :=
  ⟨(usage_errors_exit_nonzero_without_mutation envNoArgs [] []
      (Archive.mk [])).1 rfl,
   (usage_errors_exit_nonzero_without_mutation envNotDir ("/z".data) []
      (Archive.mk [])).2.1 rfl rfl,
   (usage_errors_exit_nonzero_without_mutation envNoMain ("/z".data) []
      (Archive.mk [])).2.2.1 rfl rfl rfl,
   (usage_errors_exit_nonzero_without_mutation envMainOnly ("/z".data) []
      (Archive.mk [])).2.2.2 rfl rfl (by decide) rfl (by decide) rfl⟩

/-- `~/tail` expands to the invoking user's home directory
(right-stripped of trailing slashes) followed by `/tail`. -/
theorem expanduser_tilde_slash (env : Env) (t : Str) :
    expanduser env ('~' :: '/' :: t) = rstripSlash env.home ++ '/' :: t := by
  simp [expanduser, findSlash]

/-- C10: `main` expands the user's home in the single directory argument
before any check: the whole run factors through the expanded path, a
`~/`-prefixed argument becomes a path under the invoking user's home,
and the archive lookups (here the primary-archive existence check that
decides the exit) are performed under the expanded path. -/
theorem expanduser_applied_before_checks :
    ∀ (env : Env) (d : Str) (rest : List Str),
    (env.args = d :: rest → runMain env = mainWithDir env (expanduser env d))
    ∧ (∀ t : Str,
        expanduser env ('~' :: '/' :: t) = rstripSlash env.home ++ '/' :: t)
    ∧ (env.args = ('~' :: '/' :: d) :: rest →
        env.isDir (rstripSlash env.home ++ '/' :: d) = true →
        env.isFile (osJoin (rstripSlash env.home ++ '/' :: d) MAIN_ZIP) = false →
        runMain env = (Outcome.exited 1, env.fs)) := by
  intro env d rest
  refine ⟨fun h1 => by simp [runMain, h1], expanduser_tilde_slash env,
    fun h1 h2 h3 => ?_⟩
  simp [runMain, h1, expanduser_tilde_slash, mainWithDir, h2, h3]

theorem expanduser_applied_before_checks_witness :
    runMain envTilde = (Outcome.exited 1, envTilde.fs)
    ∧ expanduser envTilde ('~' :: '/' :: "s".data)
        = rstripSlash envTilde.home ++ '/' :: "s".data :=
  ⟨(expanduser_applied_before_checks envTilde ("s".data) []).2.2 rfl rfl rfl,
   (expanduser_applied_before_checks envTilde ("s".data) []).2.1 ("s".data)⟩
